import Mathlib

/-!
Shallow embedding of the metadata-extraction pipeline of the
`reading_backlog` repository (`src/services/scraper.py`,
`src/services/llm.py`, `src/models/article.py`).

Python strings are modelled as `List Char` (`Str`); Python `None` /
optional values as `Option`.  External collaborators (the `ollama`
client, `json.loads`, `trafilatura`) are modelled as oracle parameters
threaded through the functions that call them; everything the repository
itself computes is translated directly from the source.  String methods
(`lower`, `strip`, regular expressions, percent decoding) are modelled
at ASCII granularity; full-Unicode case folding is out of scope.
-/

abbrev Str := List Char

/-- Python `\s` / `str.strip` whitespace class, ASCII range
(space, tab, newline, carriage return, vertical tab, form feed). -/
def pyIsSpace (c : Char) : Bool :=
  c = ' ' || c = '\t' || c = '\n' || c = '\r' || c = '\x0b' || c = '\x0c'

/-- Python `str.lower`, ASCII range. -/
def pyLower (c : Char) : Char :=
  if 'A' ≤ c ∧ c ≤ 'Z' then Char.ofNat (c.toNat + 32) else c

def lowerStr (s : Str) : Str := s.map pyLower

/-- Python `str.strip()` (no argument): drop leading and trailing
whitespace. -/
def pyStrip (l : Str) : Str :=
  ((l.dropWhile pyIsSpace).reverse.dropWhile pyIsSpace).reverse

/-- `re.sub(r'\s+', ' ', text)`: every maximal run of whitespace
characters is replaced by a single space. -/
def collapseWs : Str → Str
  | [] => []
  | [c] => if pyIsSpace c then [' '] else [c]
  | c :: d :: rest =>
    if pyIsSpace c && pyIsSpace d then collapseWs (d :: rest)
    else (if pyIsSpace c then ' ' else c) :: collapseWs (d :: rest)

/-- `scraper.clean_text`: `""` for `None` or empty input, otherwise
collapse whitespace runs and strip the ends. -/
def cleanText : Option Str → Str
  | none => []
  | some t => if t = [] then [] else pyStrip (collapseWs t)

/-- `clean_text` applied to a present string (the common call shape). -/
def cleanS (t : Str) : Str := cleanText (some t)

/-- `scraper.merge_tags`, translated from the imperative loop: start
from `user_tags`, append each suggested tag whose lowercase form is not
among the lowercased user tags, keep the first 6. -/
def mergeTags (userTags suggestedTags : List Str) : List Str :=
  let userTagsLower := userTags.map lowerStr
  let allTags := suggestedTags.foldl
    (fun acc tag => if lowerStr tag ∈ userTagsLower then acc else acc ++ [tag])
    userTags
  allTags.take 6

/-- `scraper.extract_pdf_date`, over the `creationDate` metadata entry
(`metadata.get("creationDate")`; `none` models an absent key).  An
empty string is falsy in Python, hence also yields `none`. -/
def extractPdfDate (creationDate : Option Str) : Option Str :=
  match creationDate with
  | none => none
  | some s =>
    if s = [] then none
    else
      let s1 := if ("D:".data).isPrefixOf s then s.drop 2 else s
      if 8 ≤ s1.length then
        some (s1.take 4 ++ "-".data ++ (s1.drop 4).take 2 ++ "-".data ++ (s1.drop 6).take 2)
      else none

/-! ### URL helpers (`urllib.parse` / `pathlib`, for absolute http(s) URLs)

`urlparse` is modelled for the URL shapes the pipeline receives
(`scheme://netloc/path?query#fragment`): the netloc is the text between
the first `"://"` and the following `/`, `?` or `#`; the path runs from
that point up to the next `?` or `#`.  A URL without `"://"` has an
empty netloc and is all path. -/

/-- The part of the URL after the first `"://"`, if any. -/
def afterScheme : Str → Option Str
  | [] => none
  | c :: rest =>
    if c = ':' ∧ ("//".data).isPrefixOf rest then some (rest.drop 2)
    else afterScheme rest

def urlNetloc (url : Str) : Str :=
  match afterScheme url with
  | none => []
  | some rest => rest.takeWhile (fun c => ¬(c = '/' ∨ c = '?' ∨ c = '#'))

def urlPath (url : Str) : Str :=
  match afterScheme url with
  | none => url.takeWhile (fun c => ¬(c = '?' ∨ c = '#'))
  | some rest =>
    (rest.dropWhile (fun c => ¬(c = '/' ∨ c = '?' ∨ c = '#'))).takeWhile
      (fun c => ¬(c = '?' ∨ c = '#'))

def hexDigitVal (c : Char) : Option Nat :=
  if '0' ≤ c ∧ c ≤ '9' then some (c.toNat - '0'.toNat)
  else if 'a' ≤ c ∧ c ≤ 'f' then some (c.toNat - 'a'.toNat + 10)
  else if 'A' ≤ c ∧ c ≤ 'F' then some (c.toNat - 'A'.toNat + 10)
  else none

/-- `urllib.parse.unquote`, ASCII scope: `%XX` with two hex digits
decodes to the corresponding character, anything else is literal. -/
def pyUnquote : Str → Str
  | '%' :: a :: b :: rest =>
    match hexDigitVal a, hexDigitVal b with
    | some x, some y => Char.ofNat (16 * x + y) :: pyUnquote rest
    | _, _ => '%' :: pyUnquote (a :: b :: rest)
  | c :: rest => c :: pyUnquote rest
  | [] => []

/-- `pathlib.PurePath(path).name`: the component after the last `/`,
ignoring trailing slashes. -/
def pathName (path : Str) : Str :=
  let trimmed := (path.reverse.dropWhile (fun c => c = '/')).reverse
  (trimmed.reverse.takeWhile (fun c => ¬(c = '/'))).reverse

/-- `pathlib`'s stem rule on a name: cut at the last `.` when it is
neither the first nor the last character of the name. -/
def stemOfName (name : Str) : Str :=
  match name.reverse.findIdx? (fun c => c = '.') with
  | none => name
  | some j =>
    let i := name.length - 1 - j
    if 0 < i ∧ i < name.length - 1 then name.take i else name

/-- `scraper.extract_filename_from_url`: percent-decode the URL path,
take its stem, replace `_` and `-` by spaces. -/
def extractFilenameFromUrl (url : Str) : Str :=
  let filename := stemOfName (pathName (pyUnquote (urlPath url)))
  filename.map (fun c => if c = '_' ∨ c = '-' then ' ' else c)

/-- `scraper.extract_domain`: netloc with a leading `www.` removed. -/
def extractDomain (url : Str) : Str :=
  let domain := urlNetloc url
  if ("www.".data).isPrefixOf domain then domain.drop 4 else domain

/-! ### LLM service (`src/services/llm.py`)

The `ollama` client and `json.loads` are external collaborators and are
modelled as oracles inside `LlmEnv`.  Parsed JSON objects are modelled
as key/value lists whose values are strings or string arrays — the only
shapes the pipeline ever reads (`title`, `summary`, `suggested_tags`);
other JSON value types and non-object parses are out of scope and are
folded into parse failure. -/

inductive JVal where
  | jstr (s : Str)
  | jarr (l : List Str)
deriving DecidableEq

abbrev PyDict := List (Str × JVal)

/-- Python `"k" in d`. -/
def hasKey (d : PyDict) (k : Str) : Bool := d.any (fun kv => decide (kv.1 = k))

/-- Python `d.get(k, dflt)` where a string is expected. -/
def getStr (d : PyDict) (k : Str) (dflt : Str) : Str :=
  match d.find? (fun kv => decide (kv.1 = k)) with
  | some (_, JVal.jstr s) => s
  | _ => dflt

/-- Python `d.get(k, [])` where a tag array is expected. -/
def getTags (d : PyDict) (k : Str) : List Str :=
  match d.find? (fun kv => decide (kv.1 = k)) with
  | some (_, JVal.jarr l) => l
  | _ => []

/-- Python truthiness of a dict: the empty dict is falsy. -/
def dictTruthy (d : PyDict) : Bool := decide (d ≠ [])

structure LlmEnv where
  /-- Did `import ollama` succeed (`OLLAMA_AVAILABLE`)? -/
  ollamaAvailable : Bool
  /-- Does the liveness probe `ollama.list()` succeed? -/
  ollamaListOk : Bool
  /-- `ollama.generate(...)` followed by `.get("response", "")`:
  `none` models a raised exception, `some r` the raw response text. -/
  generate : Str → Option Str
  /-- `json.loads`, restricted to object results (see above). -/
  jsonParse : Str → Option PyDict

/-- `llm.is_ollama_running`. -/
def isOllamaRunning (env : LlmEnv) : Bool := env.ollamaAvailable && env.ollamaListOk

def lbrace : Char := Char.ofNat 123
def rbrace : Char := Char.ofNat 125

/-- Leftmost match of the flat-object pattern (an opening brace, a run
of non-brace characters, a closing brace) — `re.search` with
`r"\x7b[^\x7b\x7d]*\x7d"` semantics. -/
def scanFlatBrace : Str → Option Str
  | [] => none
  | c :: rest =>
    if c = lbrace then
      let run := rest.takeWhile (fun d => ¬(d = lbrace ∨ d = rbrace))
      match rest.drop run.length with
      | d :: _ => if d = rbrace then some (lbrace :: run ++ [rbrace]) else scanFlatBrace rest
      | [] => scanFlatBrace rest
    else scanFlatBrace rest

/-- Greedy match from the first opening brace to the last closing brace
after it — `re.search` with `r"\x7b.*\x7d"` and `DOTALL` semantics. -/
def greedyBrace (l : Str) : Option Str :=
  match l.dropWhile (fun c => ¬(c = lbrace)) with
  | [] => none
  | _ :: rest =>
    let inner := (rest.reverse.dropWhile (fun c => ¬(c = rbrace))).reverse
    if inner = [] then none else some (lbrace :: inner)

/-- `llm.parse_llm_response`: whole-response parse, then the flat-brace
span, then the greedy brace span; first success wins. -/
def parseLlmResponse (jsonParse : Str → Option PyDict) (response : Str) : Option PyDict :=
  match jsonParse response with
  | some d => some d
  | none =>
    match (scanFlatBrace response).bind jsonParse with
    | some d => some d
    | none => (greedyBrace response).bind jsonParse

/-- `llm.MAX_TEXT_LENGTH`. -/
def maxTextLength : Nat := 6000

def truncationMarker : Str := "\n\n[Text truncated...]".data

/-- The fixed part of `EXTRACTION_PROMPT` before the embedded text. -/
def promptHead : Str :=
  ("Analyze this document and extract the following information. Respond ONLY with a JSON object, no other text.\n\nDocument text:\n").data

/-- The fixed part of `EXTRACTION_PROMPT` after the embedded text. -/
def promptTail : Str :=
  ("\n\n---\n\nExtract and return a JSON object with these fields:\n- \"title\": The main title of the document (be accurate, use the actual title)\n- \"summary\": A concise 2-3 sentence summary of the main content\n- \"suggested_tags\": An array of 2-4 relevant topic tags (lowercase, single words)\n\nJSON response:").data

/-- The truncation step of `extract_with_llm`: cut to 6000 characters
and append the marker when the text is longer. -/
def llmTruncate (text : Str) : Str :=
  if maxTextLength < text.length then text.take maxTextLength ++ truncationMarker else text

/-- `llm.extract_with_llm`.  The `try` block never raises in the model:
an exception inside `ollama.generate` is the oracle's `none`. -/
def extractWithLlm (env : LlmEnv) (text : Str) : Option PyDict :=
  if ¬env.ollamaAvailable then none
  else if ¬isOllamaRunning env then none
  else if (pyStrip (llmTruncate text)).length < 50 then none
  else
    match env.generate (promptHead ++ llmTruncate text ++ promptTail) with
    | none => none
    | some raw =>
      match parseLlmResponse env.jsonParse (pyStrip raw) with
      | some result =>
        if dictTruthy result && hasKey result "title".data && hasKey result "summary".data
        then some result else none
      | none => none

/-! ### PDF extraction (`scraper.extract_pdf_metadata` and friends)

A parsed PDF document (the result of `fitz.open`) is modelled as its
metadata fields plus, per page, the text returned by `page.get_text()`
and the text entries (`block[4]`) of `page.get_text("blocks")` in
document order. -/

structure Page where
  text : Str
  blocks : List Str
deriving DecidableEq

structure PdfDoc where
  /-- `doc.metadata.get("title")`; `none` for an absent key. -/
  metaTitle : Option Str
  /-- `doc.metadata.get("author")`. -/
  metaAuthor : Option Str
  /-- `doc.metadata.get("creationDate")`. -/
  metaCreationDate : Option Str
  pages : List Page
deriving DecidableEq

/-- Text of the first `maxPages` pages, concatenated
(`extract_pdf_metadata`'s `full_text` loop with `min(5, page_count)`). -/
def pdfFullText (doc : PdfDoc) (maxPages : Nat) : Str :=
  ((doc.pages.take maxPages).map Page.text).foldl (· ++ ·) []

/-- The block-scan loop `for block in blocks[:3]`: first block with
truthy raw text whose cleaned text has length in (5, 200). -/
def firstGoodBlock : List Str → Str
  | [] => []
  | b :: rest =>
    if b ≠ [] then
      let pt := cleanS b
      if 5 < pt.length ∧ pt.length < 200 then pt else firstGoodBlock rest
    else firstGoodBlock rest

/-- The block-scan step of the title chain (`if doc.page_count > 0`
followed by the `blocks[:3]` loop). -/
def pdfScanTitle (pages : List Page) : Str :=
  match pages with
  | [] => []
  | p0 :: _ => firstGoodBlock (p0.blocks.take 3)

/-- The metadata-title step of the chain
(`if metadata.get("title"): title = clean_text(metadata["title"])`). -/
def pdfMetaTitlePart (metaTitle : Option Str) : Str :=
  match metaTitle with
  | some s => if s ≠ [] then cleanS s else []
  | none => []

/-- The title chain of `extract_pdf_metadata`'s non-LLM branch
(lines 105-129): metadata title, else block scan of the first page,
else filename, else `"PDF from {domain}"`. -/
def pdfFallbackTitle (doc : PdfDoc) (url : Str) : Str :=
  let t1 := pdfMetaTitlePart doc.metaTitle
  let t2 := if t1 = [] then pdfScanTitle doc.pages else t1
  let t3 := if t2 = [] then extractFilenameFromUrl url else t2
  if t3 = [] then "PDF from ".data ++ extractDomain url else t3

/-- `summary = clean_text(full_text)[:200]`, plus `"..."` when the raw
`full_text` is longer than 200 characters. -/
def pdfFallbackSummary (fullText : Str) : Str :=
  (cleanS fullText).take 200 ++ (if 200 < fullText.length then "...".data else [])

/-- The dict returned by `extract_pdf_metadata`. -/
structure PdfMeta where
  title : Str
  summary : Str
  suggestedTags : List Str
  datePublished : Option Str
  author : Option Str
  usedLlm : Bool
deriving DecidableEq

/-- `scraper.extract_pdf_metadata`. -/
def extractPdfMetadata (env : LlmEnv) (doc : PdfDoc) (url : Str) (useLlm : Bool) : PdfMeta :=
  let fullText := pdfFullText doc 5
  let heuristic : PdfMeta :=
    { title := pdfFallbackTitle doc url
      summary := pdfFallbackSummary fullText
      suggestedTags := []
      datePublished := extractPdfDate doc.metaCreationDate
      author := doc.metaAuthor
      usedLlm := false }
  if useLlm ∧ isOllamaRunning env = true then
    match extractWithLlm env fullText with
    | some r =>
      { title := getStr r "title".data []
        summary := getStr r "summary".data []
        suggestedTags := getTags r "suggested_tags".data
        datePublished := extractPdfDate doc.metaCreationDate
        author := doc.metaAuthor
        usedLlm := true }
    | none => heuristic
  else heuristic

/-! ### The `Article` record (`src/models/article.py`)

The pydantic defaults `id = uuid4()` and `date_added = now()` are
nondeterministic construction-time values outside the deterministic
embedding; the remaining fields are modelled. -/

inductive Priority where
  | low | medium | high
deriving DecidableEq

inductive Status where
  | unread | read
deriving DecidableEq

structure Article where
  url : Str
  title : Str
  summary : Str
  source : Str
  datePublished : Option Str
  tags : List Str
  priority : Priority
  status : Status
deriving DecidableEq

/-- `scraper.scrape_pdf`. -/
def scrapePdf (env : LlmEnv) (doc : PdfDoc) (url : Str)
    (userTags : List Str) (priority : Priority) : Article :=
  let m := extractPdfMetadata env doc url true
  { url := url
    title := m.title
    summary := m.summary
    source := extractDomain url
    datePublished := m.datePublished
    tags := mergeTags userTags m.suggestedTags
    priority := priority
    status := Status.unread }

/-! ### HTML extraction (`scraper.scrape_html`)

`trafilatura.extract` and `trafilatura.extract_metadata` are external
collaborators, modelled as oracle fields of `HtmlEnv`; the
`<title>` regex fallback runs on the HTML text itself and is modelled
directly. -/

structure TrafMeta where
  title : Option Str
  date : Option Str
deriving DecidableEq

structure HtmlEnv where
  /-- Result of `trafilatura.extract(html, ...)`. -/
  extracted : Option Str
  /-- Result of `trafilatura.extract_metadata(html)`. -/
  metadata : Option TrafMeta
  llm : LlmEnv

/-- ASCII case-insensitive character comparison (`re.IGNORECASE`). -/
def ciEq (a b : Char) : Bool := pyLower a = pyLower b

def ciStartsWith : Str → Str → Bool
  | [], _ => true
  | _, [] => false
  | p :: ps, c :: cs => ciEq p c && ciStartsWith ps cs

/-- One attempt of the pattern
`<title[^>]*>([^<]+)</title>` (case-insensitive) at the start of `l`;
returns the captured group on success. -/
def matchTitleAt (l : Str) : Option Str :=
  if ciStartsWith "<title".data l then
    let rest1 := l.drop 6
    let attrs := rest1.takeWhile (fun c => ¬(c = '>'))
    match rest1.drop attrs.length with
    | '>' :: rest3 =>
      let content := rest3.takeWhile (fun c => ¬(c = '<'))
      if content ≠ [] ∧ ciStartsWith "</title>".data (rest3.drop content.length) = true
      then some content else none
    | _ => none
  else none

/-- `re.search(r'<title[^>]*>([^<]+)</title>', html, re.IGNORECASE)`:
leftmost match, captured group. -/
def findTitleTag : Str → Option Str
  | [] => none
  | c :: rest =>
    match matchTitleAt (c :: rest) with
    | some s => some s
    | none => findTitleTag rest

/-- `date_published` as set in both branches of `scrape_html`
(`if metadata and metadata.date`). -/
def htmlDate (md : Option TrafMeta) : Option Str :=
  match md with
  | some m =>
    match m.date with
    | some d => if d ≠ [] then some d else none
    | none => none
  | none => none

/-- The title chain of `scrape_html`'s non-LLM branch: trafilatura
metadata title, else the `<title>` regex, else `"Article from {domain}"`. -/
def htmlFallbackTitle (md : Option TrafMeta) (html url : Str) : Str :=
  let t1 := match md with
    | some m =>
      match m.title with
      | some s => if s ≠ [] then cleanS s else []
      | none => []
    | none => []
  let t2 := if t1 = [] then
      match findTitleTag html with
      | some g => cleanS g
      | none => []
    else t1
  if t2 = [] then "Article from ".data ++ extractDomain url else t2

/-- The summary of `scrape_html`'s non-LLM branch. -/
def htmlFallbackSummary (extracted : Option Str) : Str :=
  match extracted with
  | some ex =>
    if ex ≠ [] then (cleanS ex).take 200 ++ (if 200 < ex.length then "...".data else [])
    else []
  | none => []

/-- `scraper.scrape_html`. -/
def scrapeHtml (env : HtmlEnv) (url html : Str)
    (userTags : List Str) (priority : Priority) : Article :=
  let enrichment : Option PyDict :=
    match env.extracted with
    | some ex =>
      if ex ≠ [] ∧ isOllamaRunning env.llm = true then extractWithLlm env.llm ex else none
    | none => none
  match enrichment with
  | some r =>
    { url := url
      title := getStr r "title".data []
      summary := getStr r "summary".data []
      source := extractDomain url
      datePublished := htmlDate env.metadata
      tags := mergeTags userTags (getTags r "suggested_tags".data)
      priority := priority
      status := Status.unread }
  | none =>
    { url := url
      title := htmlFallbackTitle env.metadata html url
      summary := htmlFallbackSummary env.extracted
      source := extractDomain url
      datePublished := htmlDate env.metadata
      tags := userTags
      priority := priority
      status := Status.unread }

/-! ### Spec-side definitions and concrete instances used by the claims -/

/-- TagMerger contract as worded in the spec: user tags unchanged, in
input order, followed by the suggested tags whose lowercase form matches
no user tag's lowercase form, the whole truncated to 6 entries. -/
def mergeTagsSpec (userTags suggestedTags : List Str) : List Str :=
  (userTags ++ suggestedTags.filter (fun t => decide (lowerStr t ∉ userTags.map lowerStr))).take 6

def envLlmOff : LlmEnv :=
  { ollamaAvailable := false, ollamaListOk := false
    generate := fun _ => none, jsonParse := fun _ => none }

def envHtmlPlain : HtmlEnv := { extracted := none, metadata := none, llm := envLlmOff }

/-- First block of `blocks` whose normalized text length is strictly
between 5 and 200, as the spec words the heading heuristic. -/
def findGoodHeading : List Str → Option Str
  | [] => none
  | b :: rest =>
    let pt := cleanS b
    if 5 < pt.length ∧ pt.length < 200 then some pt else findGoodHeading rest

/-- The heading heuristic of the amended C4: the first among the first
three text blocks of the first page whose normalized length is strictly
between 5 and 200. -/
def pdfHeadingSpec (pages : List Page) : Option Str :=
  match pages.head? with
  | some p0 => findGoodHeading (p0.blocks.take 3)
  | none => none

/-- Title resolution as amended for C4: the spec's four-step order,
except that the heading heuristic scans only the first three blocks of
the first page and step (iii) takes the stem of the final path segment
(extension dropped, percent-decoded). -/
def pdfTitleSpecAmended (doc : PdfDoc) (url : Str) : Str :=
  let metaT := cleanText doc.metaTitle
  if metaT = [] then
    match pdfHeadingSpec doc.pages with
    | some pt => pt
    | none =>
      let fromName := extractFilenameFromUrl url
      if fromName = [] then "PDF from ".data ++ extractDomain url else fromName
  else metaT

/-- A PDF whose first usable heading is the fourth block of page one. -/
def docHeadingLate : PdfDoc :=
  { metaTitle := none, metaAuthor := none, metaCreationDate := none
    pages := [{ text := [], blocks := ["a".data, "b".data, "c".data, "A good fourth block title".data] }] }

/-- An enrichment environment whose model call always succeeds and whose
response parses to the fixed object `d`. -/
def envLlmFixed (d : PyDict) : LlmEnv :=
  { ollamaAvailable := true, ollamaListOk := true
    generate := fun _ => some "x".data, jsonParse := fun _ => some d }

def dictEnriched : PyDict :=
  [("title".data, JVal.jstr "T".data), ("summary".data, JVal.jstr (List.replicate 60 'a'))]

/-- A PDF whose heuristic title and summary coincide with the fields of
`dictEnriched`. -/
def docEnriched : PdfDoc :=
  { metaTitle := some "T".data, metaAuthor := none, metaCreationDate := none
    pages := [{ text := List.replicate 60 'a', blocks := [] }] }

def dictEmptyTitle : PyDict :=
  [("title".data, JVal.jstr []), ("summary".data, JVal.jstr "s".data)]

def envHtmlEmptyTitle : HtmlEnv :=
  { extracted := some (List.replicate 60 'a'), metadata := none, llm := envLlmFixed dictEmptyTitle }

/-- Input for C7: 49 non-whitespace characters followed by enough
trailing spaces to exceed the 6000-character truncation threshold.  Its
stripped length is 49 (< 50), yet after truncation the appended marker
makes the stripped length 6021, so the minimum-length guard does not
fire. -/
def textC7 : Str := List.replicate 49 'a' ++ List.replicate 5952 ' '

def dictC7 : PyDict := [("title".data, JVal.jstr "t".data), ("summary".data, JVal.jstr "s".data)]

/-- `llmTruncate textC7`, spelled out. -/
def truncC7 : Str := List.replicate 49 'a' ++ (List.replicate 5951 ' ' ++ truncationMarker)

/-! ## Shared lemmas -/

/-- The tag-merge loop written as append-and-filter. -/
theorem mergeTags_eq (u s : List Str) :
    mergeTags u s =
      (u ++ s.filter (fun t => decide (lowerStr t ∉ u.map lowerStr))).take 6 := by
  have aux : ∀ (s acc : List Str),
      s.foldl (fun acc tag => if lowerStr tag ∈ u.map lowerStr then acc else acc ++ [tag]) acc
        = acc ++ s.filter (fun t => decide (lowerStr t ∉ u.map lowerStr)) := by
    intro s
    induction s with
    | nil => intro acc; simp
    | cons t ts ih =>
      intro acc
      rw [List.foldl_cons, List.filter_cons]
      by_cases h : lowerStr t ∈ u.map lowerStr
      · rw [if_pos h, if_neg (by simp [h]), ih]
      · rw [if_neg h, if_pos (decide_eq_true h), ih, List.append_assoc]
        rfl
  simp only [mergeTags]
  rw [aux]

theorem mergeTags_length_le (u s : List Str) : (mergeTags u s).length ≤ 6 := by
  rw [mergeTags_eq]
  simp [List.length_take]

/-! ## C2 -/

/-- C2 counterexample: the merged output can contain two entries that
compare equal ignoring case — suggested tags are never checked against
each other, so `merge_tags [] ["ml", "ML"]` keeps both. -/
theorem c2_counterexample :
    mergeTags [] ["ml".data, "ML".data] = ["ml".data, "ML".data] ∧
    lowerStr "ml".data = lowerStr "ML".data ∧
    ¬ List.Pairwise (fun a b => lowerStr a ≠ lowerStr b)
        (mergeTags [] ["ml".data, "ML".data]) := by
  refine ⟨by decide, by decide, ?_⟩
  intro h
  rw [(by decide : mergeTags [] ["ml".data, "ML".data] = ["ml".data, "ML".data])] at h
  exact (List.pairwise_cons.mp h).1 "ML".data (by simp) (by decide)

/-- C2 (amended): if the user tags are pairwise distinct ignoring case
and the suggested tags are pairwise distinct ignoring case, then the
merged output contains no two entries that compare equal ignoring
case. -/
theorem c2_amended (u s : List Str)
    (hu : List.Pairwise (fun a b => lowerStr a ≠ lowerStr b) u)
    (hs : List.Pairwise (fun a b => lowerStr a ≠ lowerStr b) s) :
    List.Pairwise (fun a b => lowerStr a ≠ lowerStr b) (mergeTags u s) := by
  rw [mergeTags_eq]
  refine List.Pairwise.sublist (List.take_sublist _ _) ?_
  rw [List.pairwise_append]
  refine ⟨hu, hs.filter _, ?_⟩
  intro a ha b hb
  have hb2 : lowerStr b ∉ u.map lowerStr := of_decide_eq_true (List.mem_filter.mp hb).2
  exact fun h => hb2 (h ▸ List.mem_map_of_mem lowerStr ha)

theorem c2_witness :
    List.Pairwise (fun a b => lowerStr a ≠ lowerStr b) (mergeTags ["AI".data] ["ml".data]) :=
  c2_amended ["AI".data] ["ml".data] (by simp) (by simp)

/-! ## C3 -/

/-- C3 counterexample: on the heuristic HTML path the caller's tags are
passed through without the merge step, so a record with 7 tags is
produced. -/
theorem c3_counterexample :
    (scrapeHtml envHtmlPlain "http://x.com/a".data "".data
      ["t1".data, "t2".data, "t3".data, "t4".data, "t5".data, "t6".data, "t7".data]
      Priority.medium).tags.length = 7 := by decide

/-- C3 (amended): the PDF path always applies the tag merge (so its
records carry at most 6 tags); the HTML path applies it only when
enrichment succeeds — otherwise the caller-supplied tags are passed
through unchanged, with no 6-entry cap. -/
theorem c3_amended (env : LlmEnv) (henv : HtmlEnv) (doc : PdfDoc)
    (url html : Str) (userTags : List Str) (priority : Priority) :
    (scrapePdf env doc url userTags priority).tags.length ≤ 6 ∧
    ((scrapeHtml henv url html userTags priority).tags.length ≤ 6 ∨
      (scrapeHtml henv url html userTags priority).tags = userTags) := by
  constructor
  · exact mergeTags_length_le _ _
  · rcases hE : henv.extracted with _ | ex
    · right; simp [scrapeHtml, hE]
    · by_cases hC : ex ≠ [] ∧ isOllamaRunning henv.llm = true
      · rcases hX : extractWithLlm henv.llm ex with _ | r
        · right; simp [scrapeHtml, hE, hC, hX]
        · left
          simp only [scrapeHtml, hE, if_pos hC, hX]
          exact mergeTags_length_le _ _
      · right; simp [scrapeHtml, hE, hC]

/-! ## C5 -/

/-- C5 counterexample: `extract_pdf_date` performs no digit validation;
the malformed `creationDate` `"notadate"` yields `"nota-da-te"` rather
than `None`. -/
theorem c5_counterexample :
    extractPdfDate (some "notadate".data) = some "nota-da-te".data ∧
    extractPdfDate (some "notadate".data) ≠ none := by decide

/-- C5 (amended): whenever at least 8 characters remain after the
optional `D:` prefix, the result is `cc[0:4]-cc[4:6]-cc[6:8]` with no
digit validation; `None` is returned exactly for an absent, empty, or
too-short `creationDate`. -/
theorem c5_amended :
    (∀ d : Str, 8 ≤ d.length →
      extractPdfDate (some ("D:".data ++ d)) =
        some (d.take 4 ++ "-".data ++ (d.drop 4).take 2 ++ "-".data ++ (d.drop 6).take 2)) ∧
    (∀ s : Str, ¬("D:".data <+: s) → 8 ≤ s.length →
      extractPdfDate (some s) =
        some (s.take 4 ++ "-".data ++ (s.drop 4).take 2 ++ "-".data ++ (s.drop 6).take 2)) ∧
    (∀ s : Str, s ≠ [] →
      (if ("D:".data).isPrefixOf s then s.drop 2 else s).length < 8 →
      extractPdfDate (some s) = none) ∧
    extractPdfDate (some []) = none ∧
    extractPdfDate none = none := by
  refine ⟨?_, ?_, ?_, by decide, by decide⟩
  · intro d hd
    show extractPdfDate (some ('D' :: ':' :: d)) = _
    simp only [extractPdfDate]
    rw [if_neg (show ¬('D' :: ':' :: d : Str) = [] by simp)]
    split_ifs with h2 h3
    · rfl
    · exact absurd (by simpa using hd) h3
    · exact absurd (List.isPrefixOf_iff_prefix.mpr ⟨d, rfl⟩) h2
    · exact absurd (List.isPrefixOf_iff_prefix.mpr ⟨d, rfl⟩) h2
  · intro s hp hl
    simp only [extractPdfDate]
    rw [if_neg (show ¬s = [] by rintro rfl; simp at hl)]
    split_ifs with h2 h3
    · exact absurd (List.isPrefixOf_iff_prefix.mp h2) hp
    · exact absurd (List.isPrefixOf_iff_prefix.mp h2) hp
    · rfl
  · intro s hne hshort
    simp only [extractPdfDate]
    rw [if_neg hne]
    split_ifs with h2 h3 h4
    · rw [if_pos h2] at hshort; exact absurd h3 (Nat.not_le.mpr hshort)
    · rfl
    · rw [if_neg h2] at hshort; exact absurd h4 (Nat.not_le.mpr hshort)
    · rfl

theorem c5_witness :
    extractPdfDate (some ("D:".data ++ "20230415120000".data)) =
      some ("20230415120000".data.take 4 ++ "-".data ++
        ("20230415120000".data.drop 4).take 2 ++ "-".data ++
        ("20230415120000".data.drop 6).take 2) :=
  c5_amended.1 "20230415120000".data (by decide)

/-! ## C8 -/

/-- C8: `merge_tags` implements exactly the spec-side merge, and
`merge(["AI"], ["ai", "ml"]) = ["AI", "ml"]`. -/
theorem c8_confirmed :
    (∀ u s, mergeTags u s = mergeTagsSpec u s) ∧
    mergeTags ["AI".data] ["ai".data, "ml".data] = ["AI".data, "ml".data] :=
  ⟨fun u s => mergeTags_eq u s, by decide⟩

/-! ## C1 -/

theorem collapseWs_length_le : ∀ l : Str, (collapseWs l).length ≤ l.length := by
  intro l
  induction l with
  | nil => simp [collapseWs]
  | cons c tl ih =>
    cases tl with
    | nil => simp only [collapseWs]; split <;> simp
    | cons d rest =>
      simp only [collapseWs]
      split
      · exact Nat.le_trans ih (by simp)
      · simpa using ih

theorem pyStrip_length_le (l : Str) : (pyStrip l).length ≤ l.length := by
  unfold pyStrip
  rw [List.length_reverse]
  calc ((l.dropWhile pyIsSpace).reverse.dropWhile pyIsSpace).length
      ≤ (l.dropWhile pyIsSpace).reverse.length :=
        (List.dropWhile_sublist _).length_le
    _ = (l.dropWhile pyIsSpace).length := List.length_reverse _
    _ ≤ l.length := (List.dropWhile_sublist _).length_le

theorem cleanS_length_le (t : Str) : (cleanS t).length ≤ t.length := by
  by_cases h : t = []
  · subst h; simp [cleanS, cleanText]
  · calc (cleanS t).length = (pyStrip (collapseWs t)).length := by simp [cleanS, cleanText, h]
      _ ≤ (collapseWs t).length := pyStrip_length_le _
      _ ≤ t.length := collapseWs_length_le _

set_option maxRecDepth 4000 in
/-- C1 counterexample: the ellipsis is keyed on the raw, not the
normalized, text length.  For `'a'` followed by 200 spaces the
normalized text is `"a"` (length 1 ≤ 200), yet the summary is `"a..."`
with an ellipsis suffix. -/
theorem c1_counterexample :
    "...".data <:+ pdfFallbackSummary ('a' :: List.replicate 200 ' ') ∧
    (cleanS ('a' :: List.replicate 200 ' ')).length ≤ 200 ∧
    pdfFallbackSummary ('a' :: List.replicate 200 ' ') = "a...".data :=
  ⟨by decide, by decide, by decide⟩

/-- C1 (amended): every heuristic summary (PDF or HTML) has length at
most 203; the 3-character ellipsis marker is appended iff the raw
pre-normalization source text exceeds 200 characters (when it is not
appended the summary is exactly the normalized text). -/
theorem c1_amended (t : Str) :
    (pdfFallbackSummary t).length ≤ 203 ∧
    (htmlFallbackSummary (some t)).length ≤ 203 ∧
    (200 < t.length →
      "...".data <:+ pdfFallbackSummary t ∧ "...".data <:+ htmlFallbackSummary (some t)) ∧
    (t.length ≤ 200 →
      pdfFallbackSummary t = cleanS t ∧ htmlFallbackSummary (some t) = cleanS t) := by
  have htake : ((cleanS t).take 200).length ≤ 200 := by
    rw [List.length_take]; exact Nat.min_le_left _ _
  refine ⟨?_, ?_, ?_, ?_⟩
  · unfold pdfFallbackSummary
    rw [List.length_append]
    have h2 : (if 200 < t.length then "...".data else ([] : Str)).length ≤ 3 := by
      split <;> simp
    omega
  · simp only [htmlFallbackSummary]
    split_ifs with h h2
    · rw [List.length_append]
      have h3 : (['.', '.', '.'] : Str).length = 3 := rfl
      omega
    · rw [List.append_nil]
      exact Nat.le_trans htake (by norm_num)
    · simp
  · intro h
    have hne : t ≠ [] := by intro e; subst e; simp at h
    constructor
    · unfold pdfFallbackSummary
      rw [if_pos h]
      exact List.suffix_append _ _
    · simp only [htmlFallbackSummary]
      rw [if_pos hne, if_pos h]
      exact List.suffix_append _ _
  · intro h
    have hc : (cleanS t).length ≤ 200 := Nat.le_trans (cleanS_length_le t) h
    constructor
    · unfold pdfFallbackSummary
      rw [if_neg (by omega), List.append_nil, List.take_of_length_le hc]
    · simp only [htmlFallbackSummary]
      by_cases hne : t = []
      · subst hne; simp [cleanS, cleanText]
      · rw [if_pos hne, if_neg (by omega), List.append_nil, List.take_of_length_le hc]

set_option maxRecDepth 4000 in
theorem c1_witness :
    ("...".data <:+ pdfFallbackSummary (List.replicate 201 'b') ∧
      "...".data <:+ htmlFallbackSummary (some (List.replicate 201 'b'))) ∧
    (pdfFallbackSummary ['b'] = cleanS ['b'] ∧ htmlFallbackSummary (some ['b']) = cleanS ['b']) :=
  ⟨(c1_amended (List.replicate 201 'b')).2.2.1 (by decide),
   (c1_amended ['b']).2.2.2 (by decide)⟩

/-! ## C4 -/

theorem firstGoodBlock_eq (l : List Str) :
    firstGoodBlock l = (findGoodHeading l).getD [] := by
  induction l with
  | nil => rfl
  | cons b rest ih =>
    simp only [firstGoodBlock, findGoodHeading]
    by_cases hb : b = []
    · subst hb
      rw [if_neg (not_not_intro rfl), if_neg (by decide), ih]
    · rw [if_pos hb]
      by_cases hr : 5 < (cleanS b).length ∧ (cleanS b).length < 200
      · rw [if_pos hr, if_pos hr]
        rfl
      · rw [if_neg hr, if_neg hr, ih]

theorem pdfScanTitle_eq (pages : List Page) :
    pdfScanTitle pages = (pdfHeadingSpec pages).getD [] := by
  cases pages with
  | nil => rfl
  | cons p0 ps =>
    simp only [pdfScanTitle, pdfHeadingSpec, List.head?_cons]
    exact firstGoodBlock_eq _

theorem findGoodHeading_length (l : List Str) (pt : Str)
    (h : findGoodHeading l = some pt) : 5 < pt.length := by
  induction l with
  | nil => cases h
  | cons b rest ih =>
    simp only [findGoodHeading] at h
    by_cases hr : 5 < (cleanS b).length ∧ (cleanS b).length < 200
    · rw [if_pos hr] at h
      cases h
      exact hr.1
    · rw [if_neg hr] at h
      exact ih h

theorem pdfHeadingSpec_ne_nil (pages : List Page) (pt : Str)
    (h : pdfHeadingSpec pages = some pt) : pt ≠ [] := by
  unfold pdfHeadingSpec at h
  cases hp : pages.head? with
  | none => rw [hp] at h; cases h
  | some p0 =>
    rw [hp] at h
    have h5 := findGoodHeading_length _ _ h
    intro e
    subst e
    simp at h5

theorem pdfMetaTitlePart_eq (mt : Option Str) : pdfMetaTitlePart mt = cleanText mt := by
  cases mt with
  | none => rfl
  | some s =>
    by_cases hs : s = []
    · subst hs; simp [pdfMetaTitlePart, cleanS, cleanText]
    · simp [pdfMetaTitlePart, hs, cleanS]

/-- C4 counterexample: the heading heuristic scans only the first three
blocks.  With three unusable blocks followed by a usable fourth one, the
code falls back to the filename `"paper one"` instead of taking the
fourth block as the claim's resolution order requires. -/
theorem c4_counterexample :
    (extractPdfMetadata envLlmOff docHeadingLate "http://x.com/paper_one.pdf".data true).title
        = "paper one".data ∧
    5 < (cleanS "A good fourth block title".data).length ∧
    (cleanS "A good fourth block title".data).length < 200 ∧
    (extractPdfMetadata envLlmOff docHeadingLate "http://x.com/paper_one.pdf".data true).title
        ≠ cleanS "A good fourth block title".data :=
  ⟨by decide, by decide, by decide, by decide⟩

/-- C4 (amended): the heuristic title resolution is (i) the normalized
metadata title if non-empty; (ii) else the first among the first THREE
text blocks of the first page with normalized length strictly between
5 and 200; (iii) else the stem of the URL's final path segment with
`_`/`-` replaced by spaces; (iv) else `"PDF from {domain}"`. -/
theorem c4_amended (doc : PdfDoc) (url : Str) (env : LlmEnv) :
    pdfFallbackTitle doc url = pdfTitleSpecAmended doc url ∧
    (extractPdfMetadata env doc url false).title = pdfTitleSpecAmended doc url := by
  have hmain : pdfFallbackTitle doc url = pdfTitleSpecAmended doc url := by
    simp only [pdfFallbackTitle, pdfTitleSpecAmended, pdfMetaTitlePart_eq]
    by_cases h1 : cleanText doc.metaTitle = []
    · rw [if_pos h1, if_pos h1]
      by_cases hS : pdfScanTitle doc.pages = []
      · have hH : pdfHeadingSpec doc.pages = none := by
          rcases hf : pdfHeadingSpec doc.pages with _ | pt
          · rfl
          · exact absurd (by rw [pdfScanTitle_eq, hf] at hS; exact hS)
              (pdfHeadingSpec_ne_nil _ _ hf)
        simp [hS, hH]
      · rcases hf : pdfHeadingSpec doc.pages with _ | pt
        · exact absurd (by rw [pdfScanTitle_eq, hf]; rfl) hS
        · have hpt : pdfScanTitle doc.pages = pt := by rw [pdfScanTitle_eq, hf]; rfl
          have hne := pdfHeadingSpec_ne_nil _ _ hf
          simp [hf, hpt, hne]
    · simp [h1]
  exact ⟨hmain, by simp only [extractPdfMetadata]; rw [if_neg (by simp)]; exact hmain⟩

/-! ## C6 -/

/-- C6 counterexample: the `used_llm` flag is dropped when `scrape_pdf`
builds the `Article`, which has no such field — an enriched run and a
heuristic run can produce identical records, so no flag distinguishes
them. -/
theorem c6_counterexample :
    (extractPdfMetadata (envLlmFixed dictEnriched) docEnriched "http://x.com/d.pdf".data true).usedLlm
        = true ∧
    (extractPdfMetadata envLlmOff docEnriched "http://x.com/d.pdf".data true).usedLlm = false ∧
    scrapePdf (envLlmFixed dictEnriched) docEnriched "http://x.com/d.pdf".data [] Priority.medium
      = scrapePdf envLlmOff docEnriched "http://x.com/d.pdf".data [] Priority.medium :=
  ⟨by decide, by decide, by decide⟩

/-- C6 (amended): the intermediate dict built by `extract_pdf_metadata`
carries `used_llm`, true iff the LLM path supplied the result; but the
flag is discarded when the `Article` record is built, and the record
carries no such field. -/
theorem c6_amended (env : LlmEnv) (doc : PdfDoc) (url : Str) (useLlm : Bool) :
    (extractPdfMetadata env doc url useLlm).usedLlm = true ↔
      useLlm = true ∧ isOllamaRunning env = true ∧
        (extractWithLlm env (pdfFullText doc 5)).isSome = true := by
  unfold extractPdfMetadata
  by_cases hU : useLlm = true ∧ isOllamaRunning env = true
  · rw [if_pos hU]
    rcases hX : extractWithLlm env (pdfFullText doc 5) with _ | r
    · simp [hX, hU.1, hU.2]
    · simp [hX, hU.1, hU.2]
  · rw [if_neg hU]
    constructor
    · intro h
      simp at h
    · rintro ⟨h1, h2, -⟩
      exact absurd ⟨h1, h2⟩ hU

/-! ## C9 -/

/-- C9 counterexample: on the enriched HTML path the title is whatever
string the model returned for `"title"`, which may be empty — the
produced record's title is `""`. -/
theorem c9_counterexample :
    (scrapeHtml envHtmlEmptyTitle "http://x.com/a".data "".data [] Priority.medium).title = [] :=
  by decide

/-- C9 (amended): every heuristic-path title (HTML and PDF) is
non-empty — the fallback chains end in `"Article from {domain}"` /
`"PDF from {domain}"` — and when enrichment is off the pipeline uses
exactly those titles; but an enriched record's title is the
LLM-supplied string verbatim, which may be empty. -/
theorem c9_amended :
    (∀ md html url, htmlFallbackTitle md html url ≠ []) ∧
    (∀ doc url, pdfFallbackTitle doc url ≠ []) ∧
    (∀ (henv : HtmlEnv) url html userTags priority,
      isOllamaRunning henv.llm = false →
      (scrapeHtml henv url html userTags priority).title
        = htmlFallbackTitle henv.metadata html url) ∧
    (∀ (env : LlmEnv) doc url userTags priority,
      isOllamaRunning env = false →
      (scrapePdf env doc url userTags priority).title = pdfFallbackTitle doc url) := by
  have ite_ne_nil : ∀ (c : Prop) [Decidable c] (a b : Str),
      a ≠ [] → (¬c → b ≠ []) → (if c then a else b) ≠ [] := by
    intro c _ a b ha hb
    split_ifs with h
    · exact ha
    · exact hb h
  refine ⟨?_, ?_, ?_, ?_⟩
  · intro md html url
    simp only [htmlFallbackTitle]
    exact ite_ne_nil _ _ _ (List.cons_ne_nil _ _) (fun h => h)
  · intro doc url
    simp only [pdfFallbackTitle]
    exact ite_ne_nil _ _ _ (List.cons_ne_nil _ _) (fun h => h)
  · intro henv url html userTags priority hoff
    rcases hE : henv.extracted with _ | ex
    · simp [scrapeHtml, hE]
    · simp [scrapeHtml, hE, hoff]
  · intro env doc url userTags priority hoff
    simp [scrapePdf, extractPdfMetadata, hoff]

theorem c9_witness :
    (scrapeHtml envHtmlPlain "http://x.com/a".data "".data [] Priority.medium).title
        = htmlFallbackTitle envHtmlPlain.metadata "".data "http://x.com/a".data ∧
    (scrapePdf envLlmOff docHeadingLate "http://x.com/b.pdf".data [] Priority.medium).title
        = pdfFallbackTitle docHeadingLate "http://x.com/b.pdf".data :=
  ⟨c9_amended.2.2.1 envHtmlPlain _ _ [] Priority.medium (by decide),
   c9_amended.2.2.2 envLlmOff docHeadingLate _ [] Priority.medium (by decide)⟩

/-! ## C7 -/

theorem dropWhile_cons_false {p : Char → Bool} {c : Char} (l : Str) (h : p c = false) :
    (c :: l).dropWhile p = c :: l := by
  simp [List.dropWhile_cons, h]

theorem dropWhile_replicate_append {p : Char → Bool} {x : Char} (h : p x = true)
    (n : Nat) (l : Str) :
    (List.replicate n x ++ l).dropWhile p = l.dropWhile p := by
  induction n with
  | zero => simp
  | succ k ih => simp [List.replicate_succ, List.dropWhile_cons, h, ih]

theorem pyStrip_eq_self (l : Str) (h1 : l.dropWhile pyIsSpace = l)
    (h2 : l.reverse.dropWhile pyIsSpace = l.reverse) : pyStrip l = l := by
  unfold pyStrip
  rw [h1, h2, List.reverse_reverse]

/-- C7 counterexample: the minimum-length guard runs after truncation,
not on the input text.  `textC7` strips to 49 characters (< 50), yet
with a reachable model whose response parses to `dictC7` the function
returns `some dictC7` instead of `None`. -/
theorem c7_counterexample :
    (pyStrip textC7).length < 50 ∧
    extractWithLlm (envLlmFixed dictC7) textC7 = some dictC7 := by
  have hrep49 : (List.replicate 49 'a' : Str) = 'a' :: List.replicate 48 'a' := rfl
  have h1 : textC7.dropWhile pyIsSpace = textC7 := by
    show (List.replicate 49 'a' ++ List.replicate 5952 ' ').dropWhile pyIsSpace = _
    rw [hrep49, List.cons_append]
    exact dropWhile_cons_false _ (by decide)
  constructor
  · have h2 : textC7.reverse = List.replicate 5952 ' ' ++ List.replicate 49 'a' := by
      show (List.replicate 49 'a' ++ List.replicate 5952 ' ').reverse = _
      rw [List.reverse_append, List.reverse_replicate, List.reverse_replicate]
    have h3 : textC7.reverse.dropWhile pyIsSpace = List.replicate 49 'a' := by
      rw [h2, dropWhile_replicate_append (by decide : pyIsSpace ' ' = true)]
      rw [hrep49]
      exact dropWhile_cons_false _ (by decide)
    show ((textC7.dropWhile pyIsSpace).reverse.dropWhile pyIsSpace).reverse.length < 50
    rw [h1, h3, List.length_reverse, List.length_replicate]
    norm_num
  · have hlen : textC7.length = 6001 := by
      show (List.replicate 49 'a' ++ List.replicate 5952 ' ').length = 6001
      rw [List.length_append, List.length_replicate, List.length_replicate]
    have htr : llmTruncate textC7 = truncC7 := by
      unfold llmTruncate
      rw [if_pos (by rw [hlen]; decide)]
      show (List.replicate 49 'a' ++ List.replicate 5952 ' ').take maxTextLength
          ++ truncationMarker = _
      rw [List.take_append_eq_append_take,
        List.take_of_length_le (by rw [List.length_replicate]; decide),
        List.length_replicate, List.take_replicate]
      have hmin : min (maxTextLength - 49) 5952 = 5951 := by decide
      rw [hmin, List.append_assoc]
      rfl
    have hstr : pyStrip truncC7 = truncC7 := by
      apply pyStrip_eq_self
      · show (List.replicate 49 'a' ++ (List.replicate 5951 ' ' ++ truncationMarker)).dropWhile
            pyIsSpace = _
        rw [hrep49, List.cons_append]
        exact dropWhile_cons_false _ (by decide)
      · have hrev : truncC7.reverse =
            truncationMarker.reverse ++ (List.replicate 5951 ' ' ++ List.replicate 49 'a') := by
          show (List.replicate 49 'a' ++ (List.replicate 5951 ' ' ++ truncationMarker)).reverse = _
          rw [List.reverse_append, List.reverse_append, List.reverse_replicate,
            List.reverse_replicate, List.append_assoc]
        have hm : truncationMarker.reverse = ']' :: "...detacnurt txeT[\n\n".data := by decide
        rw [hrev, hm, List.cons_append, dropWhile_cons_false _ (by decide),
          ← List.cons_append, ← hm]
    have hlen2 : (pyStrip truncC7).length = 6021 := by
      rw [hstr]
      show (List.replicate 49 'a' ++ (List.replicate 5951 ' ' ++ truncationMarker)).length = 6021
      rw [List.length_append, List.length_append, List.length_replicate, List.length_replicate]
      decide
    unfold extractWithLlm
    rw [if_neg (by decide), if_neg (by decide), htr, if_neg (by rw [hlen2]; decide)]
    decide

/-- C7 (amended): `extract_with_llm` returns `None` whenever the model
service is unreachable, the TRUNCATED text's stripped length is below 50
(the guard runs after the 6000-character truncation, not on the input
text), the model call raises, the response resists all three JSON
parsing strategies, or the parsed object lacks `"title"` or
`"summary"`. -/
theorem c7_amended (env : LlmEnv) (text : Str) :
    (env.ollamaAvailable = false → extractWithLlm env text = none) ∧
    (isOllamaRunning env = false → extractWithLlm env text = none) ∧
    ((pyStrip (llmTruncate text)).length < 50 → extractWithLlm env text = none) ∧
    (env.generate (promptHead ++ llmTruncate text ++ promptTail) = none →
      extractWithLlm env text = none) ∧
    (∀ raw, env.generate (promptHead ++ llmTruncate text ++ promptTail) = some raw →
      parseLlmResponse env.jsonParse (pyStrip raw) = none →
      extractWithLlm env text = none) ∧
    (∀ raw d, env.generate (promptHead ++ llmTruncate text ++ promptTail) = some raw →
      parseLlmResponse env.jsonParse (pyStrip raw) = some d →
      (hasKey d "title".data = false ∨ hasKey d "summary".data = false) →
      extractWithLlm env text = none) := by
  unfold extractWithLlm
  refine ⟨?_, ?_, ?_, ?_, ?_, ?_⟩
  · intro h
    rw [if_pos (by simp [h])]
  · intro h
    by_cases hA : env.ollamaAvailable = true
    · rw [if_neg (by simp [hA]), if_pos (by simp [h])]
    · rw [if_pos hA]
  · intro h
    by_cases hA : env.ollamaAvailable = true
    · by_cases hR : isOllamaRunning env = true
      · rw [if_neg (by simp [hA]), if_neg (by simp [hR]), if_pos h]
      · rw [if_neg (by simp [hA]), if_pos hR]
    · rw [if_pos hA]
  · intro h
    by_cases hA : env.ollamaAvailable = true
    · by_cases hR : isOllamaRunning env = true
      · by_cases hS : (pyStrip (llmTruncate text)).length < 50
        · rw [if_neg (by simp [hA]), if_neg (by simp [hR]), if_pos hS]
        · rw [if_neg (by simp [hA]), if_neg (by simp [hR]), if_neg hS, h]
      · rw [if_neg (by simp [hA]), if_pos hR]
    · rw [if_pos hA]
  · intro raw hg hp
    by_cases hA : env.ollamaAvailable = true
    · by_cases hR : isOllamaRunning env = true
      · by_cases hS : (pyStrip (llmTruncate text)).length < 50
        · rw [if_neg (by simp [hA]), if_neg (by simp [hR]), if_pos hS]
        · rw [if_neg (by simp [hA]), if_neg (by simp [hR]), if_neg hS, hg]
          simp only [hp]
      · rw [if_neg (by simp [hA]), if_pos hR]
    · rw [if_pos hA]
  · intro raw d hg hp hk
    by_cases hA : env.ollamaAvailable = true
    · by_cases hR : isOllamaRunning env = true
      · by_cases hS : (pyStrip (llmTruncate text)).length < 50
        · rw [if_neg (by simp [hA]), if_neg (by simp [hR]), if_pos hS]
        · rw [if_neg (by simp [hA]), if_neg (by simp [hR]), if_neg hS, hg]
          simp only [hp]
          rcases hk with hk | hk <;> simp [hk]
      · rw [if_neg (by simp [hA]), if_pos hR]
    · rw [if_pos hA]

theorem c7_witness :
    extractWithLlm envLlmOff [] = none ∧
    extractWithLlm (envLlmFixed dictC7) "short".data = none :=
  ⟨(c7_amended envLlmOff []).1 rfl,
   (c7_amended (envLlmFixed dictC7) "short".data).2.2.1 (by decide)⟩

/-! ## C10 -/

theorem collapse_head : ∀ (tl : Str) (c : Char),
    (collapseWs (c :: tl)).head? = some (if pyIsSpace c then ' ' else c) := by
  intro tl
  induction tl with
  | nil =>
    intro c
    cases h : pyIsSpace c <;> simp [collapseWs, h]
  | cons d rest ih =>
    intro c
    cases hc : pyIsSpace c <;> cases hd : pyIsSpace d <;>
      simp [collapseWs, hc, hd, ih d]

theorem collapse_chain : ∀ l : Str,
    List.Chain' (fun a b => ¬(pyIsSpace a = true ∧ pyIsSpace b = true)) (collapseWs l) := by
  intro l
  induction l with
  | nil => simp [collapseWs]
  | cons c tl ih =>
    cases tl with
    | nil => cases h : pyIsSpace c <;> simp [collapseWs, h]
    | cons d rest =>
      cases hc : pyIsSpace c <;> cases hd : pyIsSpace d
      · rw [show collapseWs (c :: d :: rest) = c :: collapseWs (d :: rest) from by
          simp [collapseWs, hc, hd]]
        refine List.chain'_cons'.mpr ⟨?_, ih⟩
        intro y hy
        simp [hc]
      · rw [show collapseWs (c :: d :: rest) = c :: collapseWs (d :: rest) from by
          simp [collapseWs, hc, hd]]
        refine List.chain'_cons'.mpr ⟨?_, ih⟩
        intro y hy
        simp [hc]
      · rw [show collapseWs (c :: d :: rest) = ' ' :: collapseWs (d :: rest) from by
          simp [collapseWs, hc, hd]]
        refine List.chain'_cons'.mpr ⟨?_, ih⟩
        intro y hy
        rw [collapse_head rest d] at hy
        simp [hd] at hy
        subst hy
        simp [hd]
      · rw [show collapseWs (c :: d :: rest) = collapseWs (d :: rest) from by
          simp [collapseWs, hc, hd]]
        exact ih

theorem collapse_mem_space : ∀ (l : Str) (x : Char), x ∈ collapseWs l →
    pyIsSpace x = true → x = ' ' := by
  intro l
  induction l with
  | nil => intro x hx _; simp [collapseWs] at hx
  | cons c tl ih =>
    cases tl with
    | nil =>
      intro x hx hws
      cases h : pyIsSpace c
      · rw [show collapseWs [c] = [c] from by simp [collapseWs, h]] at hx
        simp at hx
        subst hx
        rw [h] at hws
        cases hws
      · rw [show collapseWs [c] = [' '] from by simp [collapseWs, h]] at hx
        simpa using hx
    | cons d rest =>
      intro x hx hws
      cases hc : pyIsSpace c <;> cases hd : pyIsSpace d
      · rw [show collapseWs (c :: d :: rest) = c :: collapseWs (d :: rest) from by
          simp [collapseWs, hc, hd]] at hx
        rcases List.mem_cons.mp hx with rfl | hx2
        · rw [hc] at hws; cases hws
        · exact ih x hx2 hws
      · rw [show collapseWs (c :: d :: rest) = c :: collapseWs (d :: rest) from by
          simp [collapseWs, hc, hd]] at hx
        rcases List.mem_cons.mp hx with rfl | hx2
        · rw [hc] at hws; cases hws
        · exact ih x hx2 hws
      · rw [show collapseWs (c :: d :: rest) = ' ' :: collapseWs (d :: rest) from by
          simp [collapseWs, hc, hd]] at hx
        rcases List.mem_cons.mp hx with rfl | hx2
        · rfl
        · exact ih x hx2 hws
      · rw [show collapseWs (c :: d :: rest) = collapseWs (d :: rest) from by
          simp [collapseWs, hc, hd]] at hx
        exact ih x hx hws

theorem collapse_eq_self : ∀ l : Str,
    List.Chain' (fun a b => ¬(pyIsSpace a = true ∧ pyIsSpace b = true)) l →
    (∀ x ∈ l, pyIsSpace x = true → x = ' ') → collapseWs l = l := by
  intro l
  induction l with
  | nil => intro _ _; rfl
  | cons c tl ih =>
    cases tl with
    | nil =>
      intro _ hmem
      cases h : pyIsSpace c
      · simp [collapseWs, h]
      · have hc' : c = ' ' := hmem c (by simp) h
        subst hc'
        simp [collapseWs, h]
    | cons d rest =>
      intro hch hmem
      have hR := (List.chain'_cons.mp hch).1
      have hch2 := (List.chain'_cons.mp hch).2
      have hand : (pyIsSpace c && pyIsSpace d) = false := by
        cases hc : pyIsSpace c <;> cases hd : pyIsSpace d <;> simp_all
      rw [show collapseWs (c :: d :: rest)
          = (if pyIsSpace c then ' ' else c) :: collapseWs (d :: rest) from by
        simp [collapseWs, hand]]
      rw [ih hch2 (fun x hx => hmem x (List.mem_cons_of_mem _ hx))]
      congr 1
      cases hc : pyIsSpace c
      · simp
      · simp only [if_pos rfl]
        exact (hmem c (by simp) hc).symm

theorem dropWhile_idem (p : Char → Bool) (l : Str) :
    (l.dropWhile p).dropWhile p = l.dropWhile p := by
  induction l with
  | nil => rfl
  | cons c t ih =>
    cases h : p c
    · simp [List.dropWhile_cons, h]
    · simp [List.dropWhile_cons, h, ih]

theorem dropWhile_suffix (p : Char → Bool) (l : Str) : l.dropWhile p <:+ l :=
  ⟨l.takeWhile p, List.takeWhile_append_dropWhile p l⟩

theorem pyStrip_isPrefixOf_dropWhile (l : Str) : pyStrip l <+: l.dropWhile pyIsSpace := by
  have hsuf := dropWhile_suffix pyIsSpace (l.dropWhile pyIsSpace).reverse
  have h := List.reverse_prefix.mpr hsuf
  rw [List.reverse_reverse] at h
  exact h

theorem prefix_dropWhile_eq_self (p : Char → Bool) :
    ∀ (l l' : Str), l.dropWhile p = l → l' <+: l → l'.dropWhile p = l' := by
  intro l l' hl hpre
  cases l' with
  | nil => rfl
  | cons c t =>
    obtain ⟨s, hs⟩ := hpre
    cases h : p c
    · exact dropWhile_cons_false _ h
    · exfalso
      rw [← hs, List.cons_append, List.dropWhile_cons, h, if_pos rfl] at hl
      have h1 : (List.dropWhile p (t ++ s)).length ≤ (t ++ s).length :=
        (List.dropWhile_sublist _).length_le
      rw [hl] at h1
      simp at h1

theorem pyStrip_dropWhile (l : Str) : (pyStrip l).dropWhile pyIsSpace = pyStrip l :=
  prefix_dropWhile_eq_self pyIsSpace (l.dropWhile pyIsSpace) (pyStrip l)
    (dropWhile_idem pyIsSpace l) (pyStrip_isPrefixOf_dropWhile l)

theorem pyStrip_rev_dropWhile (l : Str) :
    (pyStrip l).reverse.dropWhile pyIsSpace = (pyStrip l).reverse := by
  have h : (pyStrip l).reverse = (l.dropWhile pyIsSpace).reverse.dropWhile pyIsSpace := by
    unfold pyStrip
    rw [List.reverse_reverse]
  rw [h]
  exact dropWhile_idem _ _

theorem pyStrip_idem (l : Str) : pyStrip (pyStrip l) = pyStrip l :=
  pyStrip_eq_self _ (pyStrip_dropWhile l) (pyStrip_rev_dropWhile l)

theorem chain'_of_isPrefixOf {R : Char → Char → Prop} {l₁ l₂ : Str} (h : l₁ <+: l₂)
    (hc : List.Chain' R l₂) : List.Chain' R l₁ := by
  obtain ⟨s, rfl⟩ := h
  exact (List.chain'_append.mp hc).1

theorem chain'_of_suffix {R : Char → Char → Prop} {l₁ l₂ : Str} (h : l₁ <:+ l₂)
    (hc : List.Chain' R l₂) : List.Chain' R l₁ := by
  obtain ⟨s, rfl⟩ := h
  exact (List.chain'_append.mp hc).2.1

theorem pyStrip_mem (l : Str) (x : Char) (hx : x ∈ pyStrip l) : x ∈ l :=
  (List.dropWhile_sublist pyIsSpace).subset ((pyStrip_isPrefixOf_dropWhile l).subset hx)

theorem cleanText_strip (t : Option Str) : pyStrip (cleanText t) = cleanText t := by
  cases t with
  | none => rfl
  | some s =>
    by_cases hs : s = []
    · subst hs; rfl
    · rw [show cleanText (some s) = pyStrip (collapseWs s) from by simp [cleanText, hs]]
      exact pyStrip_idem _

theorem cleanText_chain (t : Option Str) :
    List.Chain' (fun a b => ¬(pyIsSpace a = true ∧ pyIsSpace b = true)) (cleanText t) := by
  cases t with
  | none => exact List.chain'_nil
  | some s =>
    by_cases hs : s = []
    · subst hs; exact List.chain'_nil
    · rw [show cleanText (some s) = pyStrip (collapseWs s) from by simp [cleanText, hs]]
      exact chain'_of_isPrefixOf (pyStrip_isPrefixOf_dropWhile _)
        (chain'_of_suffix (dropWhile_suffix _ _) (collapse_chain s))

theorem cleanText_mem_space (t : Option Str) :
    ∀ x ∈ cleanText t, pyIsSpace x = true → x = ' ' := by
  cases t with
  | none => intro x hx; cases hx
  | some s =>
    by_cases hs : s = []
    · subst hs; intro x hx; cases hx
    · rw [show cleanText (some s) = pyStrip (collapseWs s) from by simp [cleanText, hs]]
      intro x hx hws
      exact collapse_mem_space s x (pyStrip_mem _ x hx) hws

theorem cleanText_some_of_ne (s : Str) (hs : s ≠ []) :
    cleanText (some s) = pyStrip (collapseWs s) := by
  simp [cleanText, hs]

theorem cleanText_idem (t : Option Str) :
    cleanText (some (cleanText t)) = cleanText t := by
  by_cases hr : cleanText t = []
  · rw [hr]; rfl
  · rw [cleanText_some_of_ne (cleanText t) hr,
      collapse_eq_self (cleanText t) (cleanText_chain t) (cleanText_mem_space t)]
    exact cleanText_strip t

/-- C10: `clean_text` is total (it is a function of the embedding),
maps `None` and `""` to `""`, never produces leading/trailing
whitespace or two adjacent whitespace characters (every whitespace
character of the output is a single space), and is idempotent. -/
theorem c10_confirmed (t : Option Str) :
    cleanText none = [] ∧ cleanText (some []) = [] ∧
    pyStrip (cleanText t) = cleanText t ∧
    List.Chain' (fun a b => ¬(pyIsSpace a = true ∧ pyIsSpace b = true)) (cleanText t) ∧
    (∀ x ∈ cleanText t, pyIsSpace x = true → x = ' ') ∧
    cleanText (some (cleanText t)) = cleanText t :=
  ⟨rfl, rfl, cleanText_strip t, cleanText_chain t, cleanText_mem_space t, cleanText_idem t⟩

theorem c10_witness :
    pyStrip (cleanText (some "  a \t b ".data)) = cleanText (some "  a \t b ".data) ∧
    cleanText (some (cleanText (some "  a \t b ".data))) = cleanText (some "  a \t b ".data) ∧
    (' ' : Char) = ' ' :=
  ⟨(c10_confirmed (some "  a \t b ".data)).2.2.1,
   (c10_confirmed (some "  a \t b ".data)).2.2.2.2.2,
   (c10_confirmed (some "  a \t b ".data)).2.2.2.2.1 ' ' (by decide) (by decide)⟩
